import Mathlib

/-!
Verification development for the `ms2txt` Metastock reader
(`metastock/files.py`).

The Python code is shallowly embedded: byte strings become `List Nat`,
Python exceptions become `Except PyErr`, file reads become explicit
state threading over the remaining input bytes, and the text written to
the output CSV file becomes an ordered list of written string chunks.

The numeric codec (`metastock/utils.py`: `fmsbin2ieee`, `float2date`,
`float2time`) is external to the sources under verification; following
the specification it is treated as an opaque `Codec` parameter whose
floating values are modelled as rationals.
-/

deriving instance DecidableEq for Except

/-- Python exception kinds that the embedded code can raise. -/
inductive PyErr
  | indexError
  | assertionError
  | attributeError
  | valueError
  | typeError
  | structError
  deriving Repr, DecidableEq

/-- Models `file_handle.read(n)` for a nonnegative count: returns the bytes
read (possibly fewer than `n` at end of stream) and the remaining stream. -/
def pyReadN (s : List Nat) (n : Nat) : List Nat × List Nat :=
  (s.take n, s.drop n)

/-- Models `file_handle.read(n)` for a Python `int` count: a negative count
reads the whole remaining stream. -/
def pyReadI (s : List Nat) (n : Int) : List Nat × List Nat :=
  if n < 0 then (s, []) else (s.take n.toNat, s.drop n.toNat)

/-- Models `struct.unpack("B", b)[0]`: one unsigned byte. -/
def unpackU8 (b : List Nat) : Except PyErr Nat :=
  match b with
  | [x] => .ok x
  | _ => .error .structError

/-- Models `struct.unpack("c", b)[0]`: one raw character. -/
def unpackChar (b : List Nat) : Except PyErr Nat :=
  match b with
  | [x] => .ok x
  | _ => .error .structError

/-- Models `struct.unpack("H", b)[0]`: little-endian unsigned 16-bit. -/
def unpackU16 (b : List Nat) : Except PyErr Nat :=
  match b with
  | [x, y] => .ok (x + 256 * y)
  | _ => .error .structError

/-- Two's-complement reinterpretation of an unsigned value below `2^bits`. -/
def toSigned (bits : Nat) (n : Nat) : Int :=
  if n < 2 ^ (bits - 1) then (n : Int) else (n : Int) - 2 ^ bits

/-- Models `struct.unpack("b", b)[0]`: one signed byte. -/
def unpackI8 (b : List Nat) : Except PyErr Int :=
  match b with
  | [x] => .ok (toSigned 8 x)
  | _ => .error .structError

/-- Models `struct.unpack("h", b)[0]`: little-endian signed 16-bit. -/
def unpackI16 (b : List Nat) : Except PyErr Int :=
  match b with
  | [x, y] => .ok (toSigned 16 (x + 256 * y))
  | _ => .error .structError

/-- Models `struct.unpack("i", b)[0]`: little-endian signed 32-bit. -/
def unpackI32 (b : List Nat) : Except PyErr Int :=
  match b with
  | [x, y, z, w] => .ok (toSigned 32 (x + 256 * y + 65536 * z + 16777216 * w))
  | _ => .error .structError

/-- Models `s.strip('\x00')` on a byte string: removes null bytes from both
ends, keeping embedded nulls. -/
def pyStrip0 (s : List Nat) : List Nat :=
  ((s.dropWhile (· = 0)).reverse.dropWhile (· = 0)).reverse

/-- Models `s.find('\x00')` on a byte string: index of the first null byte,
`-1` when there is none. -/
def pyFind0 (s : List Nat) : Int :=
  match s.findIdx? (· = 0) with
  | some i => (i : Int)
  | none => -1

/-- Models the recurring source pattern
`if s.find('\x00') > 0: s = s[0:s.find('\x00')]`: the field is cut at its
first null byte only when that null is not the leading byte. -/
def truncAtFind0 (s : List Nat) : List Nat :=
  if pyFind0 s > 0 then s.take (pyFind0 s).toNat else s

/-- Field trimming in the specification's words ("trimmed at first embedded
null terminator; may be empty"), kept separate for comparison with the
source's behaviour. -/
def specNullTrim (s : List Nat) : List Nat :=
  s.takeWhile (· ≠ 0)

/-- Models the Python format directive `"%02d"`: decimal, zero-padded to at
least two characters. -/
def pad2 (n : Int) : String :=
  if 0 ≤ n ∧ n < 10 then "0" ++ toString n else toString n

/-- Models Python `int(f)` on a float (modelled as a rational): truncation
toward zero. -/
def pyIntOfRat (q : Rat) : Int :=
  q.num.tdiv (q.den : Int)

/-- Rounds `a / b` to the nearest integer, ties to even, mirroring the
rounding used when formatting a float with a fixed number of decimals. -/
def roundHalfEvenDiv (a : Int) (b : Nat) : Int :=
  let f := Int.fdiv a (b : Int)
  let r := a - f * (b : Int)
  if 2 * r < (b : Int) then f
  else if 2 * r > (b : Int) then f + 1
  else if f % 2 = 0 then f else f + 1

/-- Renders a nonnegative integer in decimal with at least `w` digits. -/
def natDigitsPad (w : Nat) (n : Nat) : String :=
  let s := toString n
  let pad := w - s.length
  String.mk (List.replicate pad '0') ++ s

/-- Modelled from the spec: fixed-precision rendering of a float value,
as produced by the Python format `("%0." + str(precision) + "f") % value`
in `FloatColumn.format` (the float itself is modelled as a rational). -/
def formatFixed (prec : Nat) (q : Rat) : String :=
  let scaled := roundHalfEvenDiv (q.num * (10 : Int) ^ prec) q.den
  let sign := if scaled < 0 then "-" else ""
  let digits := natDigitsPad (prec + 1) scaled.natAbs
  let len := digits.length
  if prec = 0 then sign ++ digits
  else sign ++ (String.mk (digits.data.take (len - prec))) ++ "." ++
    (String.mk (digits.data.drop (len - prec)))

/-- Models `str.replace('"', '""')`: every quote character is doubled. -/
def pyReplaceQuote (s : String) : String :=
  String.mk (s.data.foldr (fun c acc => if c = '"' then '"' :: '"' :: acc else c :: acc) [])

/-- Value of a decimal digit character, `none` for any other character. -/
def pyDigit? (c : Char) : Option Nat :=
  if 48 ≤ c.toNat ∧ c.toNat ≤ 57 then some (c.toNat - 48) else none

/-- Accumulates the decimal value of a digit run; fails at a non-digit. -/
def pyNatParseAux : List Char → Nat → Option Nat
  | [], acc => some acc
  | c :: cs, acc =>
    match pyDigit? c with
    | some d => pyNatParseAux cs (acc * 10 + d)
    | none => none

/-- Parses a nonempty run of decimal digits. -/
def pyNatParse : List Char → Option Nat
  | [] => none
  | l => pyNatParseAux l 0

/-- Models Python `int(s)` on a string: an optional minus sign followed by
decimal digits; `none` (an uncaught `ValueError` in the source) for
anything else. -/
def pyIntParse (s : String) : Option Int :=
  match s.data with
  | '-' :: rest => (pyNatParse rest).map (fun n => -(n : Int))
  | l => (pyNatParse l).map (fun n => (n : Int))

/-- Splits a character list at newline characters (used to count the lines
of the produced CSV text). -/
def splitOnNl : List Char → List (List Char)
  | [] => [[]]
  | c :: rest =>
    let r := splitOnNl rest
    if c = '\n' then [] :: r
    else
      match r with
      | [] => [[c]]
      | h :: t => (c :: h) :: t

/-- The lines of a string, splitting at every newline character. -/
def pyLines (s : String) : List String :=
  (splitOnNl s.data).map String.mk

/-- Concatenation of all chunks written to the output file. -/
def joinChunks (chunks : List String) : String :=
  chunks.foldl (· ++ ·) ""

/-- Modelled from the spec: a decoded calendar date as returned by the
external `float2date` (`decodeDate`) of `metastock/utils.py`. -/
structure MSDate where
  year : Int
  month : Int
  day : Int
  deriving Repr, DecidableEq

/-- Modelled from the spec: a decoded clock time as returned by the
external `float2time` (`decodeTime`) of `metastock/utils.py`; it carries
`hour`, `minute` and `second` and nothing else. -/
structure MSTime where
  hour : Int
  minute : Int
  second : Int
  deriving Repr, DecidableEq

/-- Python attribute access on a decoded time value: only `hour`, `minute`
and `second` exist; any other attribute raises `AttributeError`. -/
def MSTime.getattr (t : MSTime) (a : String) : Option Int :=
  if a = "hour" then some t.hour
  else if a = "minute" then some t.minute
  else if a = "second" then some t.second
  else none

/-- Modelled from the spec: the external numeric codec of
`metastock/utils.py` (`fmsbin2ieee`, `float2date`, `float2time`), with
floats modelled as rationals. -/
structure Codec where
  fmsbin2ieee : List Nat → Rat
  float2date : Rat → Option MSDate
  float2time : Rat → Option MSTime

/-- A dynamically-typed Python value as it flows through the decoder. -/
inductive PyVal
  | vNone
  | vInt (i : Int)
  | vRat (q : Rat)
  | vDate (d : MSDate)
  | vTime (t : MSTime)
  deriving Repr, DecidableEq

/-- Models Python `str(value)` for the values the decoder handles (used by
the base `Column.format`). -/
def pyStrVal : PyVal → String
  | .vNone => "None"
  | .vInt i => toString i
  | .vRat q => toString q.num ++ "/" ++ toString q.den
  | .vDate d => toString d.year ++ "-" ++ toString d.month ++ "-" ++ toString d.day
  | .vTime t => toString t.hour ++ ":" ++ toString t.minute ++ ":" ++ toString t.second

/-- The column-decoder hierarchy of `DataFileInfo` as a closed tagged
variant: `DateColumn`, `TimeColumn`, `FloatColumn`, `IntColumn`, each with
its display name.  Every column has `dataSize = 4`. -/
inductive Column
  | DateColumn (name : String)
  | TimeColumn (name : String)
  | FloatColumn (name : String)
  | IntColumn (name : String)
  deriving Repr, DecidableEq

/-- Display name of a column (the `name` attribute). -/
def Column.name : Column → String
  | .DateColumn n => n
  | .TimeColumn n => n
  | .FloatColumn n => n
  | .IntColumn n => n

/-- Number of bytes one value of this column occupies in the data file. -/
def Column.dataSize : Column → Nat := fun _ => 4

/-- Number of bytes assumed for a column with no known decoder. -/
def unknownColumnDataSize : Nat := 4

/-- Models `col.__class__ == DataFileInfo.DateColumn`. -/
def Column.isDateCol : Column → Bool
  | .DateColumn _ => true
  | _ => false

/-- Models the per-class `read` methods: `DateColumn` and `TimeColumn`
feed the legacy float through the date/time decoders, `FloatColumn`
returns the float, `IntColumn` truncates it to an integer. -/
def Column.read (codec : Codec) : Column → List Nat → PyVal
  | .DateColumn _, b =>
    match codec.float2date (codec.fmsbin2ieee b) with
    | some d => .vDate d
    | none => .vNone
  | .TimeColumn _, b =>
    match codec.float2time (codec.fmsbin2ieee b) with
    | some t => .vTime t
    | none => .vNone
  | .FloatColumn _, b => .vRat (codec.fmsbin2ieee b)
  | .IntColumn _, b => .vInt (pyIntOfRat (codec.fmsbin2ieee b))

/-- Models the per-class `format` methods.  Note the source's
`TimeColumn.format` reads `value.year`, `value.month` and `value.day` from
the decoded time value; a time value only has `hour`, `minute`, `second`,
so a successfully decoded time raises `AttributeError`. -/
def Column.format (prec : Nat) : Column → PyVal → Except PyErr String
  | .DateColumn _, .vDate d => .ok (pad2 d.year ++ pad2 d.month ++ pad2 d.day)
  | .DateColumn _, v => .ok (pyStrVal v)
  | .TimeColumn _, .vTime t =>
    match t.getattr "year", t.getattr "month", t.getattr "day" with
    | some y, some m, some d => .ok (pad2 y ++ pad2 m ++ pad2 d)
    | _, _, _ => .error .attributeError
  | .TimeColumn _, v => .ok (pyStrVal v)
  | .FloatColumn _, .vRat q => .ok (formatFixed prec q)
  | .FloatColumn _, _ => .error .typeError
  | .IntColumn _, v => .ok (pyStrVal v)

/-- The fixed `knownMSColumns` table mapping a Metastock column name to
its decoder; names outside the table have no decoder (`None`). -/
def knownMSColumns (name : String) : Option Column :=
  if name = "DATE" then some (.DateColumn "Date")
  else if name = "TIME" then some (.TimeColumn "Time")
  else if name = "OPEN" then some (.FloatColumn "Open")
  else if name = "HIGH" then some (.FloatColumn "High")
  else if name = "LOW" then some (.FloatColumn "Low")
  else if name = "CLOSE" then some (.FloatColumn "Close")
  else if name = "VOL" then some (.IntColumn "Volume")
  else if name = "OI" then some (.IntColumn "Oi")
  else none

/-- Python truthiness of the `bit_fields` attribute (`if self.bit_fields:`):
false for `None` and for `0`. -/
def pyTruthy : Option Int → Bool
  | none => false
  | some v => decide (v ≠ 0)

/-- Python 2 comparison `len(lines) > self.num_fields`: `None` compares
below every integer. -/
def pyGtLen (n : Nat) : Option Int → Bool
  | none => true
  | some i => decide ((n : Int) > i)

/-- Python 2 comparison `len(lines) == self.num_fields`. -/
def pyEqLen (n : Nat) : Option Int → Bool
  | none => false
  | some i => decide ((n : Int) = i)

/-- Models the bitmask resolution at the top of
`DataFileInfo._load_columns`: when `bit_fields` is truthy, each of the
eight bit positions appends an active flag to `bits` and counts toward the
recomputed `num_fields`; otherwise `bits` stays empty and the declared
`num_fields` is kept. -/
def DataFileInfo.resolveBits (bit_fields : Option Int) (num_fields : Option Int) :
    List Nat × Option Int :=
  if pyTruthy bit_fields then
    let bf := bit_fields.getD 0
    let p := (List.range 8).foldl
      (fun (acc : List Nat × Nat) b =>
        if Int.land ((1 <<< b : Nat) : Int) bf > 0 then (acc.1 ++ [1], acc.2 + 1)
        else (acc.1 ++ [0], acc.2))
      ([], 0)
    (p.1, some (p.2 : Int))
  else ([], num_fields)

/-- Fuel-indexed body of the truncation loop
`while len(lines) > self.num_fields: lines.pop()`: elements are popped
from the end; popping from an empty list raises `IndexError` (which
happens whenever `num_fields` is `None` or negative).  The fuel is the
initial list length, which bounds the number of iterations the loop can
make before the list empties. -/
def popExcessAux : Nat → List String → Option Int → Except PyErr (List String)
  | 0, lines, nf =>
    if pyGtLen lines.length nf then .error .indexError else .ok lines
  | f + 1, lines, nf =>
    if pyGtLen lines.length nf then
      match lines with
      | [] => .error .indexError
      | a :: as => popExcessAux f (a :: as).dropLast nf
    else .ok lines

/-- The truncation loop of `_load_columns`. -/
def popExcess (lines : List String) (nf : Option Int) : Except PyErr (List String) :=
  popExcessAux lines.length lines nf

/-- Models `DataFileInfo._load_columns`, given the list of column names
already extracted from the `F<n>.DOP` lines (the text-file reading and the
quoted-name regex are the external collaborator of the spec): resolves
`bits` and `num_fields`, truncates the name list, and asserts the
resulting length (`AssertionError` on a mismatch). -/
def DataFileInfo.load_columns (bit_fields num_fields0 : Option Int) (lines : List String) :
    Except PyErr (List Nat × Option Int × List String) := do
  let (bits, nf) := DataFileInfo.resolveBits bit_fields num_fields0
  let lines2 ← popExcess lines nf
  if pyEqLen lines2.length nf then .ok (bits, nf, lines2) else .error .assertionError

/-- The mutable state of `DataFileInfo.load_candles` while streaming one
data file: the remaining input bytes, the chunks written to the output
file so far, and the `perform_write` flag. -/
structure LCState where
  inp : List Nat
  out : List String
  pw : Bool
  deriving Repr, DecidableEq

/-- Models one iteration of the inner `for col in columns` loop of
`load_candles`: an unknown column's bytes are read and ignored; a known
column's bytes are read, decoded and formatted; the date column updates
`perform_write` against the cutoff and, when writing, emits the quoted
stock name before its own value; every written value is preceded by a
comma. -/
def slotStep (codec : Codec) (prec : Nat) (stock_name : String) (yyyymmdd : Int)
    (st : LCState) (col : Option Column) : Except PyErr LCState :=
  match col with
  | none => .ok { st with inp := st.inp.drop unknownColumnDataSize }
  | some c =>
    let bytes := st.inp.take c.dataSize
    let rest := st.inp.drop c.dataSize
    let v := c.read codec bytes
    match c.format prec v with
    | .error e => .error e
    | .ok s =>
      if c.isDateCol then
        match pyIntParse s with
        | none => .error .valueError
        | some iv =>
          let pw := decide (iv ≥ yyyymmdd)
          let out1 := if pw then st.out ++ ["\"" ++ stock_name ++ "\""] else st.out
          let out2 := if pw then out1 ++ ["," ++ s] else out1
          .ok ⟨rest, out2, pw⟩
      else
        .ok ⟨rest, if st.pw then st.out ++ ["," ++ s] else st.out, st.pw⟩

/-- Runs `slotStep` over all column slots of one record, in slot order. -/
def runSlots (codec : Codec) (prec : Nat) (stock_name : String) (yyyymmdd : Int) :
    List (Option Column) → LCState → Except PyErr LCState
  | [], st => .ok st
  | c :: rest, st =>
    match slotStep codec prec stock_name yyyymmdd st c with
    | .ok st' => runSlots codec prec stock_name yyyymmdd rest st'
    | .error e => .error e

/-- Models one iteration of the outer record loop of `load_candles`: all
slots are processed, then a newline is written when `perform_write` is
still set. -/
def recordStep (codec : Codec) (prec : Nat) (stock_name : String) (yyyymmdd : Int)
    (cols : List (Option Column)) (st : LCState) : Except PyErr LCState := do
  let st' ← runSlots codec prec stock_name yyyymmdd cols st
  .ok { st' with out := if st'.pw then st'.out ++ ["\n"] else st'.out }

/-- Runs `recordStep` for the given number of records
(`xrange(self.last_rec - 1)`). -/
def runRecords (codec : Codec) (prec : Nat) (stock_name : String) (yyyymmdd : Int)
    (cols : List (Option Column)) : Nat → LCState → Except PyErr LCState
  | 0, st => .ok st
  | n + 1, st =>
    match recordStep codec prec stock_name yyyymmdd cols st with
    | .ok st' => runRecords codec prec stock_name yyyymmdd cols n st'
    | .error e => .error e

/-- Models the header loop of `load_candles` over the column names: each
name is looked up in `knownMSColumns`; the `bits` entry at the name's
first index in the column list decides whether a known column's quoted
display name is written; the (possibly missing) decoder is appended to
the slot list either way.  An out-of-range `bits` access raises
`IndexError`. -/
def buildHeaderAux (bits : List Nat) (full : List String) :
    List String → Except PyErr (List String × List (Option Column))
  | [] => .ok ([], [])
  | name :: rest => do
    let column := knownMSColumns name
    let i ← match full.findIdx? (· == name) with
      | some i => .ok i
      | none => .error .valueError
    let b ← match bits[i]? with
      | some b => .ok b
      | none => .error .indexError
    let (outR, colsR) ← buildHeaderAux bits full rest
    let chunk : List String :=
      if b = 0 then []
      else match column with
        | some c => ["," ++ "\"" ++ pyReplaceQuote c.name ++ "\""]
        | none => []
    .ok (chunk ++ outR, column :: colsR)

/-- Header loop over the full column-name list. -/
def buildHeader (bits : List Nat) (colnames : List String) :
    Except PyErr (List String × List (Option Column)) :=
  buildHeaderAux bits colnames colnames

/-- Models `DataFileInfo.load_candles`: reads `max_recs` and `last_rec`
from the data-file header, skips `(num_fields - 1) * 4` header bytes,
writes the `"Name"` header line, then decodes `last_rec - 1` records.
The result is the ordered list of chunks written to the CSV file. -/
def DataFileInfo.load_candles (codec : Codec) (prec : Nat) (stock_name : String)
    (colnames : List String) (bits : List Nat) (num_fields : Int) (yyyymmdd : Int)
    (inp : List Nat) : Except PyErr (List String) := do
  let (b1, s1) := pyReadN inp 2
  let _max_recs ← unpackU16 b1
  let (b2, s2) := pyReadN s1 2
  let last_rec ← unpackU16 b2
  let (_, s3) := pyReadI s2 ((num_fields - 1) * 4)
  let (hout, cols) ← buildHeader bits colnames
  let st0 : LCState := ⟨s3, ("\"Name\"" :: hout) ++ ["\n"], true⟩
  let stN ← runRecords codec prec stock_name yyyymmdd cols (last_rec - 1) st0
  .ok stN.out

/-- Models `DataFileInfo.convert2ascii` up to the exception handler:
loads the column schema, then streams the data file.  `num_fields` being
`None` after a successful `_load_columns` cannot happen (it would already
have raised), so the impossible branch raises `TypeError` as Python
would on `None - 1`. -/
def DataFileInfo.convert2ascii (codec : Codec) (prec : Nat) (bit_fields num_fields0 : Option Int)
    (dopNames : List String) (stock_name : String) (yyyymmdd : Int) (datInput : List Nat) :
    Except PyErr (List String) := do
  let (bits, nf, cols) ← DataFileInfo.load_columns bit_fields num_fields0 dopNames
  let nfI ← match nf with
    | some k => .ok k
    | none => .error .typeError
  DataFileInfo.load_candles codec prec stock_name cols bits nfI yyyymmdd datInput

/-- The per-symbol inputs consumed by one `convert2ascii` call. -/
structure StockConv where
  bit_fields : Option Int
  num_fields : Option Int
  dopNames : List String
  stock_symbol : String
  stock_name : String
  datInput : List Nat
  deriving Repr, DecidableEq

/-- Models `output_ascii` of the index-file classes: every stock matching
the selection is converted, a failed conversion is caught at the symbol
boundary (`Option.none` below) and the loop continues with the next
symbol; unselected stocks are skipped (`none` entry of the outer option). -/
def output_ascii (codec : Codec) (prec : Nat) (yyyymmdd : Int) (all_symbols : Bool)
    (symbols : List String) (stocks : List StockConv) :
    List (Option (Option (List String))) :=
  stocks.map (fun st =>
    if all_symbols || symbols.contains st.stock_symbol then
      some (DataFileInfo.convert2ascii codec prec st.bit_fields st.num_fields st.dopNames
        st.stock_name yyyymmdd st.datInput).toOption
    else none)

/-- The decoded per-symbol metadata (`DataFileInfo`'s attributes as set by
the index-file readers; class attributes default to `None`).  The two date
attributes hold whatever Python value the reader stored: a decoded
calendar date (EMASTER), a raw signed integer (XMASTER/MASTER), or
`None`. -/
structure DataFileInfo where
  file_num : Option Int := none
  num_fields : Option Int := none
  bit_fields : Option Int := none
  stock_symbol : List Nat := []
  stock_name : List Nat := []
  time_frame : Option Nat := none
  first_date : PyVal := .vNone
  last_date : PyVal := .vNone
  deriving Repr, DecidableEq

/-- Models `MSEMasterFile._read_file_info`: decodes one 192-byte EMASTER
record from the stream.  `first_date`/`last_date` are 4-byte standard
floats (read with `struct.unpack("f", ...)`, modelled by the `unpackF`
parameter) fed to `float2date`; a record whose dates fail to decode is
rejected (`none`).  The second component is the remaining stream. -/
def MSEMasterFile.readFileInfo (unpackF : List Nat → Rat) (f2d : Rat → Option MSDate)
    (s : List Nat) : Except PyErr (Option DataFileInfo) × List Nat :=
  let (_, s) := pyReadN s 2
  let (b1, s) := pyReadN s 1
  let (_, s) := pyReadN s 3
  let (b2, s) := pyReadN s 1
  let (b3, s) := pyReadN s 1
  let (_, s) := pyReadN s 3
  let (symRaw, s) := pyReadN s 14
  let (_, s) := pyReadN s 7
  let (nameRaw, s) := pyReadN s 16
  let (_, s) := pyReadN s 12
  let (tf, s) := pyReadN s 1
  let (_, s) := pyReadN s 3
  let (fdB, s) := pyReadN s 4
  let (_, s) := pyReadN s 4
  let (ldB, s) := pyReadN s 4
  let (_, s) := pyReadN s 116
  let res : Except PyErr (Option DataFileInfo) := do
    let file_num ← unpackU8 b1
    let num_fields ← unpackU8 b2
    let bit_fields ← unpackU8 b3
    let time_frame ← unpackChar tf
    let fd ← if fdB.length = 4 then .ok (unpackF fdB) else .error .structError
    let ld ← if ldB.length = 4 then .ok (unpackF ldB) else .error .structError
    let first_date : PyVal := match f2d fd with
      | some d => .vDate d
      | none => .vNone
    let last_date : PyVal := match f2d ld with
      | some d => .vDate d
      | none => .vNone
    let dfi : DataFileInfo :=
      { file_num := some (file_num : Int), num_fields := some (num_fields : Int),
        bit_fields := some (bit_fields : Int),
        stock_symbol := pyStrip0 symRaw,
        stock_name := truncAtFind0 (pyStrip0 nameRaw),
        time_frame := some time_frame,
        first_date := first_date, last_date := last_date }
    if first_date = .vNone ∨ last_date = .vNone then .ok none else .ok (some dfi)
  (res, s)

/-- Models the record loop of `MSEMasterFile.__init__`: reads `files_no`
records, appending each record that was not rejected. -/
def MSEMasterFile.loop (unpackF : List Nat → Rat) (f2d : Rat → Option MSDate) :
    Nat → List Nat → List DataFileInfo → Except PyErr (List DataFileInfo)
  | 0, _, acc => .ok acc
  | n + 1, s, acc =>
    match MSEMasterFile.readFileInfo unpackF f2d s with
    | (.error e, _) => .error e
    | (.ok none, s') => MSEMasterFile.loop unpackF f2d n s' acc
    | (.ok (some dfi), s') => MSEMasterFile.loop unpackF f2d n s' (acc ++ [dfi])

/-- Models `MSEMasterFile.__init__`: the header holds the total record
count and the last-file index, followed by 188 padding bytes; then the
record loop produces the `stocks` list. -/
def MSEMasterFile.readStocks (unpackF : List Nat → Rat) (f2d : Rat → Option MSDate)
    (input : List Nat) : Except PyErr (List DataFileInfo) := do
  let (b1, s) := pyReadN input 2
  let files_no ← unpackU16 b1
  let (b2, s) := pyReadN s 2
  let _last_file ← unpackU16 b2
  let (_, s) := pyReadN s 188
  MSEMasterFile.loop unpackF f2d files_no s []

/-- Models `MSXMasterFile._read_file_info`: decodes one 150-byte XMASTER
record; `stock_symbol`/`stock_name` are cut at their first null byte only
when it is not leading; the dates are raw signed 32-bit integers.  No
record is ever rejected. -/
def MSXMasterFile.readFileInfo (s : List Nat) : Except PyErr DataFileInfo × List Nat :=
  let (_, s) := pyReadN s 1
  let (symRaw, s) := pyReadN s 15
  let (nameRaw, s) := pyReadN s 46
  let (tf, s) := pyReadN s 1
  let (_, s) := pyReadN s 2
  let (fnB, s) := pyReadN s 2
  let (_, s) := pyReadN s 3
  let (bfB, s) := pyReadN s 1
  let (_, s) := pyReadN s 9
  let (ldB, s) := pyReadN s 4
  let (_, s) := pyReadN s 20
  let (fdB, s) := pyReadN s 4
  let (_, s) := pyReadN s 42
  let res : Except PyErr DataFileInfo := do
    let time_frame ← unpackChar tf
    let file_num ← unpackI16 fnB
    let bit_fields ← unpackI8 bfB
    let ld ← unpackI32 ldB
    let fd ← unpackI32 fdB
    .ok { stock_symbol := truncAtFind0 symRaw,
          stock_name := truncAtFind0 nameRaw,
          time_frame := some time_frame,
          file_num := some file_num,
          bit_fields := some bit_fields,
          last_date := .vInt ld, first_date := .vInt fd }
  (res, s)

/-- Models `MSMasterFile._read_file_info`: decodes one 53-byte MASTER
record; fields are cut at their first null byte only when it is not
leading; the dates are raw signed 32-bit integers; `num_fields` and
`bit_fields` are never set.  No record is ever rejected. -/
def MSMasterFile.readFileInfo (s : List Nat) : Except PyErr DataFileInfo × List Nat :=
  let (fnB, s) := pyReadN s 1
  let (_, s) := pyReadN s 6
  let (nameRaw, s) := pyReadN s 16
  let (_, s) := pyReadN s 2
  let (fdB, s) := pyReadN s 4
  let (ldB, s) := pyReadN s 4
  let (_, s) := pyReadN s 3
  let (symRaw, s) := pyReadN s 14
  let (_, s) := pyReadN s 3
  let res : Except PyErr DataFileInfo := do
    let file_num ← unpackU8 fnB
    let fd ← unpackI32 fdB
    let ld ← unpackI32 ldB
    .ok { file_num := some (file_num : Int),
          stock_name := truncAtFind0 nameRaw,
          first_date := .vInt fd, last_date := .vInt ld,
          stock_symbol := truncAtFind0 symRaw }
  (res, s)

/-- Interprets four bytes as a big-endian base-256 integer (the carrier
for the test codec below). -/
def bytesBE (b : List Nat) : Nat :=
  b.foldl (fun acc x => acc * 256 + x) 0

/-- A concrete instantiation of the external codec used to evaluate the
embedded code on explicit inputs: a float is the big-endian integer value
of its four bytes, and a float `n > 10000000` decodes as the calendar
date `YYYYMMDD = n` (other values fail to decode, and no value decodes
as a clock time). -/
def testCodec : Codec where
  fmsbin2ieee := fun b => ((bytesBE b : Int) : Rat)
  float2date := fun q =>
    if q.den = 1 ∧ q.num > 10000000 then
      some ⟨q.num / 10000, (q.num / 100) % 100, q.num % 100⟩
    else none
  float2time := fun _ => none

/-- A column slot whose decoding can never raise and never touches the
date logic: an unknown slot, a float column or an integer column. -/
def isSimpleSlot : Option Column → Bool
  | none => true
  | some (.FloatColumn _) => true
  | some (.IntColumn _) => true
  | _ => false

/-- The string a simple known column formats from four input bytes. -/
def simpleFmt (codec : Codec) (prec : Nat) (c : Column) (bytes : List Nat) : String :=
  match c with
  | .FloatColumn _ => formatFixed prec (codec.fmsbin2ieee bytes)
  | .IntColumn _ => toString (pyIntOfRat (codec.fmsbin2ieee bytes))
  | .DateColumn _ => ""
  | .TimeColumn _ => ""

/-- The chunks a run of simple slots writes when `perform_write` is set:
one comma-prefixed formatted value per known slot, in slot order, each
slot consuming four bytes. -/
def simpleChunks (codec : Codec) (prec : Nat) :
    List (Option Column) → List Nat → List String
  | [], _ => []
  | none :: rest, inp => simpleChunks codec prec rest (inp.drop 4)
  | some c :: rest, inp =>
    ("," ++ simpleFmt codec prec c (inp.take 4)) :: simpleChunks codec prec rest (inp.drop 4)

/-- Number of set bits among bit positions `0..7` (the popcount the
specification prescribes for an 8-bit mask). -/
def low8Popcount (bf : Nat) : Nat :=
  ((List.range 8).filter (fun i => bf.testBit i)).length

/-- The active-flag list the specification prescribes: flag `i` is `1`
exactly when bit `i` of the mask is set, ascending from bit `0`. -/
def low8Bits (bf : Nat) : List Nat :=
  (List.range 8).map (fun i => if bf.testBit i then 1 else 0)

/-- Whether an EMASTER record block makes `_read_file_info` reject it:
one of the two date fields (at byte offsets 64 and 72) fails to decode. -/
def emDatesFail (unpackF : List Nat → Rat) (f2d : Rat → Option MSDate)
    (block : List Nat) : Bool :=
  decide (f2d (unpackF ((block.drop 64).take 4)) = none ∨
    f2d (unpackF ((block.drop 72).take 4)) = none)

/-- Big-endian four-byte encoding of a value below `2^32` (builds concrete
data-file fixtures for the test codec). -/
def dateBE (n : Nat) : List Nat :=
  [n / 16777216, (n / 65536) % 256, (n / 256) % 256, n % 256]

/-- Concrete data file: header (`max_recs = 9`, `last_rec = 6`), no header
padding beyond `(1-1)*4 = 0` bytes, then five 4-byte DATE records dated
`20200101` through `20200105`. -/
def c5Input : List Nat :=
  [9, 0] ++ [6, 0] ++
  dateBE 20200101 ++ dateBE 20200102 ++ dateBE 20200103 ++
  dateBE 20200104 ++ dateBE 20200105

/-- Concrete data file for the schema `["DATE", "CLOSE"]`: one record,
date `20200101`, close value `5`. -/
def c2Input : List Nat :=
  [9, 0] ++ [2, 0] ++ [0, 0, 0, 0] ++ dateBE 20200101 ++ [0, 0, 0, 5]

/-- Concrete data file for the schema `["CLOSE", "DATE"]`: one record,
close value `5`, date `20200101`. -/
def c3Input : List Nat :=
  [9, 0] ++ [2, 0] ++ [0, 0, 0, 0] ++ [0, 0, 0, 5] ++ dateBE 20200101

/-- Concrete data file for the schema `["CLOSE", "DATE"]`: two records,
the first dated `20200104` (above the cutoff `20200103`), the second
dated `20200101` (below it) with close value `5`. -/
def c5bInput : List Nat :=
  [9, 0] ++ [3, 0] ++ [0, 0, 0, 0] ++
  [0, 0, 0, 7] ++ dateBE 20200104 ++ [0, 0, 0, 5] ++ dateBE 20200101

/-- A concrete 150-byte XMASTER record whose symbol field starts with a
null byte (`[0, 65, 0, ...]`). -/
def xmRecBlk : List Nat :=
  [7] ++ ([0, 65] ++ List.replicate 13 0) ++ List.replicate 46 0 ++ [68] ++
  List.replicate 2 0 ++ [3, 0] ++ List.replicate 3 0 ++ [1] ++ List.replicate 9 0 ++
  [1, 0, 0, 0] ++ List.replicate 20 0 ++ [2, 0, 0, 0] ++ List.replicate 42 0

/-- A concrete 192-byte EMASTER record whose two date fields (offsets 64
and 72) decode successfully under the test codec. -/
def c6GoodBlock : List Nat :=
  List.replicate 64 0 ++ dateBE 20200101 ++ List.replicate 4 0 ++
  dateBE 20200102 ++ List.replicate 116 0

/-- A concrete 192-byte EMASTER record whose date fields fail to decode
under the test codec (all zero bytes). -/
def c6BadBlock : List Nat :=
  List.replicate 192 0

theorem land_shift_pos (bf i : Nat) :
    (Int.land ((1 <<< i : Nat) : Int) (bf : Int) > 0) ↔ bf.testBit i := by
  have h1 : Int.land ((1 <<< i : Nat) : Int) (bf : Int) = ((Nat.land (1 <<< i) bf : Nat) : Int) := rfl
  have h2 : Nat.land (1 <<< i) bf = bf &&& 2 ^ i := by
    rw [Nat.one_shiftLeft]; exact Nat.land_comm _ _
  rw [gt_iff_lt, h1, Int.natCast_pos, h2, Nat.and_two_pow]
  cases h : bf.testBit i <;> simp [h, Nat.pos_pow_of_pos]

theorem foldl_bits (l : List Nat) (P : Nat → Prop) [DecidablePred P] (acc : List Nat × Nat) :
    l.foldl (fun (acc : List Nat × Nat) b =>
        if P b then (acc.1 ++ [1], acc.2 + 1) else (acc.1 ++ [0], acc.2)) acc
    = (acc.1 ++ l.map (fun b => if P b then 1 else 0),
       acc.2 + (l.filter (fun b => decide (P b))).length) := by
  induction l generalizing acc with
  | nil => simp
  | cons a t ih =>
    by_cases h : P a
    · simp [h, ih, List.append_assoc]
      omega
    · simp [h, ih, List.append_assoc]

theorem resolveBits_truthy (bf : Nat) (hbf : bf ≠ 0) (nf0 : Option Int) :
    DataFileInfo.resolveBits (some (bf : Int)) nf0 =
      (low8Bits bf, some ((low8Popcount bf : Nat) : Int)) := by
  have ht : pyTruthy (some (bf : Int)) = true := by
    simp [pyTruthy, hbf]
  rw [DataFileInfo.resolveBits]
  rw [ht]
  simp only [Option.getD_some, if_true, foldl_bits]
  rw [Prod.mk.injEq]
  constructor
  · simp only [List.nil_append, low8Bits]
    exact List.map_congr_left (fun b _ => by
      by_cases h : bf.testBit b
      · rw [if_pos ((land_shift_pos bf b).mpr h), if_pos h]
      · rw [if_neg (fun hc => h ((land_shift_pos bf b).mp hc)), if_neg h])
  · simp only [Nat.zero_add, low8Popcount]
    have hf : (List.range 8).filter (fun b => decide (Int.land ((1 <<< b : Nat) : Int) (bf : Int) > 0))
        = (List.range 8).filter (fun i => bf.testBit i) := by
      refine List.filter_congr (fun b _ => ?_)
      by_cases h : bf.testBit b
      · simp [h, (land_shift_pos bf b).mpr h]
      · have hn : ¬ (Int.land ((1 <<< b : Nat) : Int) (bf : Int) > 0) :=
          fun hc => h ((land_shift_pos bf b).mp hc)
        simp [h, hn]
    rw [hf]

theorem slotStep_ok_inp (codec : Codec) (prec : Nat) (nm : String) (y : Int)
    (st : LCState) (col : Option Column) (st' : LCState)
    (h : slotStep codec prec nm y st col = .ok st') : st'.inp = st.inp.drop 4 := by
  cases col with
  | none =>
    simp only [slotStep, unknownColumnDataSize, Except.ok.injEq] at h
    rw [← h]
  | some c =>
    simp only [slotStep] at h
    rcases hf : Column.format prec c (Column.read codec c (st.inp.take c.dataSize)) with e | s
    · rw [hf] at h
      exact absurd h (by simp)
    · rw [hf] at h
      by_cases hd : c.isDateCol
      · simp only [hd, if_true] at h
        rcases hp : pyIntParse s with _ | iv
        · rw [hp] at h
          exact absurd h (by simp)
        · rw [hp] at h
          simp only [Except.ok.injEq] at h
          rw [← h]
          simp [Column.dataSize]
      · simp only [hd, Bool.false_eq_true, if_false, Except.ok.injEq] at h
        rw [← h]
        simp [Column.dataSize]

theorem runSlots_ok_inp (codec : Codec) (prec : Nat) (nm : String) (y : Int)
    (cols : List (Option Column)) :
    ∀ (st st' : LCState), runSlots codec prec nm y cols st = .ok st' →
      st'.inp = st.inp.drop (4 * cols.length) := by
  induction cols with
  | nil =>
    intro st st' h
    simp only [runSlots, Except.ok.injEq] at h
    rw [← h]
    simp
  | cons c rest ih =>
    intro st st' h
    unfold runSlots at h
    split at h
    next st1 hs =>
      have h1 := slotStep_ok_inp codec prec nm y st c st1 hs
      have h2 := ih st1 st' h
      rw [h2, h1, List.drop_drop]
      congr 1
      simp only [List.length_cons]
      ring
    next e hs => exact absurd h (by simp)

theorem recordStep_ok_inp (codec : Codec) (prec : Nat) (nm : String) (y : Int)
    (cols : List (Option Column)) (st st' : LCState)
    (h : recordStep codec prec nm y cols st = .ok st') :
    st'.inp = st.inp.drop (4 * cols.length) := by
  unfold recordStep at h
  rcases hr : runSlots codec prec nm y cols st with e | st1
  · rw [hr] at h
    exact absurd h (by simp [Bind.bind, Except.bind])
  · rw [hr] at h
    simp only [Bind.bind, Except.bind, Except.ok.injEq] at h
    have := runSlots_ok_inp codec prec nm y cols st st1 hr
    rw [← h]
    exact this

theorem runSlots_simple_false (codec : Codec) (prec : Nat) (nm : String) (y : Int) :
    ∀ cols : List (Option Column), (∀ c ∈ cols, isSimpleSlot c = true) →
      ∀ (inp : List Nat) (out : List String),
        runSlots codec prec nm y cols ⟨inp, out, false⟩ =
          .ok ⟨inp.drop (4 * cols.length), out, false⟩ := by
  intro cols
  induction cols with
  | nil =>
    intro _ inp out
    simp [runSlots]
  | cons c rest ih =>
    intro hs inp out
    have hc : isSimpleSlot c = true := hs c (by simp)
    have hrest : ∀ x ∈ rest, isSimpleSlot x = true := fun x hx => hs x (by simp [hx])
    have harith : 4 * (c :: rest).length = 4 * rest.length + 4 := by
      simp [List.length_cons]; ring
    match c, hc with
    | none, _ =>
      have h1 : slotStep codec prec nm y ⟨inp, out, false⟩ none =
          .ok ⟨inp.drop 4, out, false⟩ := rfl
      rw [runSlots, h1]
      show runSlots codec prec nm y rest ⟨inp.drop 4, out, false⟩ = _
      rw [ih hrest (inp.drop 4) out, List.drop_drop, harith, Nat.add_comm]
    | some (.FloatColumn n), _ =>
      have h1 : slotStep codec prec nm y ⟨inp, out, false⟩ (some (.FloatColumn n)) =
          .ok ⟨inp.drop 4, out, false⟩ := rfl
      rw [runSlots, h1]
      show runSlots codec prec nm y rest ⟨inp.drop 4, out, false⟩ = _
      rw [ih hrest (inp.drop 4) out, List.drop_drop, harith, Nat.add_comm]
    | some (.IntColumn n), _ =>
      have h1 : slotStep codec prec nm y ⟨inp, out, false⟩ (some (.IntColumn n)) =
          .ok ⟨inp.drop 4, out, false⟩ := rfl
      rw [runSlots, h1]
      show runSlots codec prec nm y rest ⟨inp.drop 4, out, false⟩ = _
      rw [ih hrest (inp.drop 4) out, List.drop_drop, harith, Nat.add_comm]

theorem runSlots_simple_true (codec : Codec) (prec : Nat) (nm : String) (y : Int) :
    ∀ cols : List (Option Column), (∀ c ∈ cols, isSimpleSlot c = true) →
      ∀ (inp : List Nat) (out : List String),
        runSlots codec prec nm y cols ⟨inp, out, true⟩ =
          .ok ⟨inp.drop (4 * cols.length), out ++ simpleChunks codec prec cols inp, true⟩ := by
  intro cols
  induction cols with
  | nil =>
    intro _ inp out
    simp [runSlots, simpleChunks]
  | cons c rest ih =>
    intro hs inp out
    have hrest : ∀ x ∈ rest, isSimpleSlot x = true := fun x hx => hs x (by simp [hx])
    have harith : 4 * (c :: rest).length = 4 * rest.length + 4 := by
      simp [List.length_cons]; ring
    match c, hs c (by simp) with
    | none, _ =>
      have h1 : slotStep codec prec nm y ⟨inp, out, true⟩ none =
          .ok ⟨inp.drop 4, out, true⟩ := rfl
      rw [runSlots, h1]
      show runSlots codec prec nm y rest ⟨inp.drop 4, out, true⟩ = _
      rw [ih hrest (inp.drop 4) out, List.drop_drop, harith, Nat.add_comm]
      rfl
    | some (.FloatColumn n), _ =>
      have h1 : slotStep codec prec nm y ⟨inp, out, true⟩ (some (.FloatColumn n)) =
          .ok ⟨inp.drop 4, out ++ ["," ++ simpleFmt codec prec (.FloatColumn n) (inp.take 4)], true⟩ := rfl
      rw [runSlots, h1]
      show runSlots codec prec nm y rest
        ⟨inp.drop 4, out ++ ["," ++ simpleFmt codec prec (.FloatColumn n) (inp.take 4)], true⟩ = _
      rw [ih hrest (inp.drop 4) _, List.drop_drop, harith, Nat.add_comm]
      simp [simpleChunks]
    | some (.IntColumn n), _ =>
      have h1 : slotStep codec prec nm y ⟨inp, out, true⟩ (some (.IntColumn n)) =
          .ok ⟨inp.drop 4, out ++ ["," ++ simpleFmt codec prec (.IntColumn n) (inp.take 4)], true⟩ := rfl
      rw [runSlots, h1]
      show runSlots codec prec nm y rest
        ⟨inp.drop 4, out ++ ["," ++ simpleFmt codec prec (.IntColumn n) (inp.take 4)], true⟩ = _
      rw [ih hrest (inp.drop 4) _, List.drop_drop, harith, Nat.add_comm]
      simp [simpleChunks]

theorem slotStep_date (codec : Codec) (prec : Nat) (nm : String) (y : Int)
    (st : LCState) (dn : String) (d : MSDate) (iv : Int)
    (hdec : codec.float2date (codec.fmsbin2ieee (st.inp.take 4)) = some d)
    (hparse : pyIntParse (pad2 d.year ++ pad2 d.month ++ pad2 d.day) = some iv) :
    slotStep codec prec nm y st (some (.DateColumn dn)) =
      if iv ≥ y then
        .ok ⟨st.inp.drop 4,
          st.out ++ ["\"" ++ nm ++ "\"", "," ++ (pad2 d.year ++ pad2 d.month ++ pad2 d.day)], true⟩
      else .ok ⟨st.inp.drop 4, st.out, false⟩ := by
  have hread : Column.read codec (.DateColumn dn) (st.inp.take (Column.dataSize (.DateColumn dn))) =
      .vDate d := by
    simp [Column.read, Column.dataSize, hdec]
  simp only [slotStep, hread]
  have hfmt : Column.format prec (.DateColumn dn) (.vDate d) =
      .ok (pad2 d.year ++ pad2 d.month ++ pad2 d.day) := rfl
  rw [hfmt]
  simp only [Column.isDateCol, if_true, hparse]
  by_cases hge : iv ≥ y
  · simp only [hge, if_pos, decide_eq_true_eq, ge_iff_le, decide_eq_true]
    simp [hge, Column.dataSize, List.append_assoc]
  · have : decide (iv ≥ y) = false := by simp [hge]
    simp [this, hge, Column.dataSize]

theorem recordStep_dateFirst_pass (codec : Codec) (prec : Nat) (nm : String) (y : Int)
    (st : LCState) (dn : String) (rest : List (Option Column)) (d : MSDate) (iv : Int)
    (hsimple : ∀ c ∈ rest, isSimpleSlot c = true)
    (hdec : codec.float2date (codec.fmsbin2ieee (st.inp.take 4)) = some d)
    (hparse : pyIntParse (pad2 d.year ++ pad2 d.month ++ pad2 d.day) = some iv)
    (hge : iv ≥ y) :
    recordStep codec prec nm y (some (.DateColumn dn) :: rest) st =
      .ok ⟨st.inp.drop (4 * (rest.length + 1)),
        st.out ++ ["\"" ++ nm ++ "\"", "," ++ (pad2 d.year ++ pad2 d.month ++ pad2 d.day)]
          ++ simpleChunks codec prec rest (st.inp.drop 4) ++ ["\n"], true⟩ := by
  have hslot := slotStep_date codec prec nm y st dn d iv hdec hparse
  rw [if_pos hge] at hslot
  unfold recordStep
  rw [runSlots, hslot]
  show (do
    let st' ← runSlots codec prec nm y rest
      ⟨st.inp.drop 4,
        st.out ++ ["\"" ++ nm ++ "\"", "," ++ (pad2 d.year ++ pad2 d.month ++ pad2 d.day)], true⟩
    Except.ok { st' with out := if st'.pw then st'.out ++ ["\n"] else st'.out }) = _
  rw [runSlots_simple_true codec prec nm y rest hsimple (st.inp.drop 4) _]
  simp only [Bind.bind, Except.bind, List.drop_drop]
  have harith : 4 + 4 * rest.length = 4 * (rest.length + 1) := by ring
  rw [harith]
  simp [List.append_assoc]

theorem recordStep_dateFirst_fail (codec : Codec) (prec : Nat) (nm : String) (y : Int)
    (st : LCState) (dn : String) (rest : List (Option Column)) (d : MSDate) (iv : Int)
    (hsimple : ∀ c ∈ rest, isSimpleSlot c = true)
    (hdec : codec.float2date (codec.fmsbin2ieee (st.inp.take 4)) = some d)
    (hparse : pyIntParse (pad2 d.year ++ pad2 d.month ++ pad2 d.day) = some iv)
    (hlt : iv < y) :
    recordStep codec prec nm y (some (.DateColumn dn) :: rest) st =
      .ok ⟨st.inp.drop (4 * (rest.length + 1)), st.out, false⟩ := by
  have hslot := slotStep_date codec prec nm y st dn d iv hdec hparse
  rw [if_neg (by omega)] at hslot
  unfold recordStep
  rw [runSlots, hslot]
  show (do
    let st' ← runSlots codec prec nm y rest ⟨st.inp.drop 4, st.out, false⟩
    Except.ok { st' with out := if st'.pw then st'.out ++ ["\n"] else st'.out }) = _
  rw [runSlots_simple_false codec prec nm y rest hsimple (st.inp.drop 4) _]
  simp only [Bind.bind, Except.bind, List.drop_drop]
  have harith : 4 + 4 * rest.length = 4 * (rest.length + 1) := by ring
  rw [harith]
  simp

theorem slice_append {α : Type} (b r : List α) (j k : Nat) (h : j + k ≤ b.length) :
    ((b ++ r).drop j).take k = (b.drop j).take k := by
  rw [List.drop_append_of_le_length (by omega)]
  rw [List.take_append_of_le_length (by simp [List.length_drop]; omega)]

theorem emaster_read_append (uF : List Nat → Rat) (f2d : Rat → Option MSDate)
    (b r : List Nat) (hb : b.length = 192) :
    MSEMasterFile.readFileInfo uF f2d (b ++ r) =
      ((MSEMasterFile.readFileInfo uF f2d b).1, r) := by
  simp only [MSEMasterFile.readFileInfo, pyReadN, List.drop_drop]
  rw [slice_append b r 2 1 (by omega), slice_append b r 6 1 (by omega),
    slice_append b r 7 1 (by omega), slice_append b r 11 14 (by omega),
    slice_append b r 32 16 (by omega), slice_append b r 60 1 (by omega),
    slice_append b r 64 4 (by omega), slice_append b r 72 4 (by omega)]
  rw [List.drop_append_of_le_length (by omega)]
  rw [show b.drop 192 = [] from List.drop_eq_nil_of_le (by omega)]
  rfl

theorem emaster_read_classify (uF : List Nat → Rat) (f2d : Rat → Option MSDate)
    (b : List Nat) (hb : b.length = 192) :
    if emDatesFail uF f2d b then (MSEMasterFile.readFileInfo uF f2d b).1 = .ok none
    else ∃ d, (MSEMasterFile.readFileInfo uF f2d b).1 = .ok (some d) := by
  obtain ⟨x1, e1⟩ := List.length_eq_one.mp
    (show ((b.drop 2).take 1).length = 1 by simp [List.length_take, List.length_drop, hb])
  obtain ⟨x2, e2⟩ := List.length_eq_one.mp
    (show ((b.drop 6).take 1).length = 1 by simp [List.length_take, List.length_drop, hb])
  obtain ⟨x3, e3⟩ := List.length_eq_one.mp
    (show ((b.drop 7).take 1).length = 1 by simp [List.length_take, List.length_drop, hb])
  obtain ⟨x4, e4⟩ := List.length_eq_one.mp
    (show ((b.drop 60).take 1).length = 1 by simp [List.length_take, List.length_drop, hb])
  have hfd : ((b.drop 64).take 4).length = 4 := by
    simp [List.length_take, List.length_drop, hb]
  have hld : ((b.drop 72).take 4).length = 4 := by
    simp [List.length_take, List.length_drop, hb]
  simp only [MSEMasterFile.readFileInfo, pyReadN, List.drop_drop]
  simp only [e1, e2, e3, e4, unpackU8, unpackChar, Bind.bind, Except.bind, hfd, hld, if_pos]
  rcases hq1 : f2d (uF ((b.drop 64).take 4)) with _ | d1 <;>
    rcases hq2 : f2d (uF ((b.drop 72).take 4)) with _ | d2 <;>
      simp [emDatesFail, hq1, hq2]

theorem emaster_loop_count (uF : List Nat → Rat) (f2d : Rat → Option MSDate) :
    ∀ blocks : List (List Nat), (∀ x ∈ blocks, x.length = 192) →
      ∀ (r : List Nat) (acc : List DataFileInfo),
        ∃ out, MSEMasterFile.loop uF f2d blocks.length (blocks.flatten ++ r) acc = .ok out ∧
          out.length + blocks.countP (emDatesFail uF f2d) = acc.length + blocks.length := by
  intro blocks
  induction blocks with
  | nil =>
    intro _ r acc
    exact ⟨acc, rfl, by simp⟩
  | cons b bs ih =>
    intro hlen r acc
    have hb : b.length = 192 := hlen b (by simp)
    have hbs : ∀ x ∈ bs, x.length = 192 := fun x hx => hlen x (by simp [hx])
    have hflat : (b :: bs).flatten ++ r = b ++ (bs.flatten ++ r) := by
      simp [List.flatten_cons, List.append_assoc]
    rw [List.length_cons, hflat]
    have happ := emaster_read_append uF f2d b (bs.flatten ++ r) hb
    have hclass := emaster_read_classify uF f2d b hb
    by_cases hfail : emDatesFail uF f2d b
    · rw [if_pos hfail] at hclass
      obtain ⟨out, hout, hcount⟩ := ih hbs r acc
      refine ⟨out, ?_, ?_⟩
      · rw [MSEMasterFile.loop, happ, hclass]
        exact hout
      · rw [List.countP_cons_of_pos _ _ (by simp [hfail])]
        omega
    · rw [if_neg hfail] at hclass
      obtain ⟨d, hd⟩ := hclass
      obtain ⟨out, hout, hcount⟩ := ih hbs r (acc ++ [d])
      refine ⟨out, ?_, ?_⟩
      · rw [MSEMasterFile.loop, happ, hd]
        exact hout
      · rw [List.countP_cons_of_neg _ _ (by simp [hfail])]
        simp at hcount
        omega

/-- C6 (confirmed): EMASTER parsing of a well-formed stream (header with
record count, then that many 192-byte records) never aborts on a record
whose `first_date` or `last_date` fails to decode; such records are
merely excluded, so the parsed stock count equals the header's total
record count minus the number of records with an undecodable date. -/
theorem claim_C6 (uF : List Nat → Rat) (f2d : Rat → Option MSDate)
    (h0 h1 p0 p1 : Nat) (pad : List Nat) (blocks : List (List Nat))
    (hpad : pad.length = 188)
    (hcount : blocks.length = h0 + 256 * h1)
    (hlen : ∀ x ∈ blocks, x.length = 192) :
    ∃ out, MSEMasterFile.readStocks uF f2d
        (h0 :: h1 :: p0 :: p1 :: (pad ++ blocks.flatten)) = .ok out ∧
      out.length = blocks.length - blocks.countP (emDatesFail uF f2d) := by
  obtain ⟨out, hout, hc⟩ := emaster_loop_count uF f2d blocks hlen [] []
  rw [List.append_nil] at hout
  simp only [List.length_nil, Nat.zero_add] at hc
  refine ⟨out, ?_, ?_⟩
  · simp only [MSEMasterFile.readStocks, pyReadN, List.take_succ_cons, List.take_zero,
      List.drop_succ_cons, List.drop_zero, unpackU16, Bind.bind, Except.bind]
    rw [List.drop_append_of_le_length (by omega)]
    rw [show pad.drop 188 = [] from List.drop_eq_nil_of_le (by omega)]
    rw [List.nil_append, ← hcount]
    exact hout
  · have := @List.countP_le_length _ (emDatesFail uF f2d) blocks
    omega

theorem take_findIdx_eq_takeWhile (s : List Nat) :
    ∀ i, s.findIdx? (· = 0) = some i → s.take i = s.takeWhile (· ≠ 0) := by
  induction s with
  | nil =>
    intro i h
    rw [List.findIdx?_nil] at h
    exact Option.noConfusion h
  | cons a t ih =>
    intro i h
    by_cases ha : a = 0
    · rw [List.findIdx?_cons, if_pos (by simp [ha])] at h
      injection h with h
      subst h
      simp [List.takeWhile_cons, ha]
    · rw [List.findIdx?_cons, if_neg (by simp [ha]), List.findIdx?_succ] at h
      rcases hj : t.findIdx? (· = 0) with _ | j
      · rw [hj] at h; simp at h
      · rw [hj] at h
        simp only [Option.map_some'] at h
        injection h with h
        rw [← h]
        simp [ha, ih j hj]

theorem takeWhile_of_findIdx_none (s : List Nat) :
    s.findIdx? (· = 0) = none → s.takeWhile (· ≠ 0) = s := by
  intro h
  have hall := List.findIdx?_eq_none_iff.mp h
  rw [List.takeWhile_eq_self_iff]
  intro x hx
  have := hall x hx
  simpa using this

theorem truncAtFind0_eq (s : List Nat) :
    truncAtFind0 s = if s.head? = some 0 then s else s.takeWhile (· ≠ 0) := by
  cases s with
  | nil => rfl
  | cons a t =>
    by_cases ha : a = 0
    · have hf : pyFind0 (a :: t) = 0 := by
        simp [pyFind0, List.findIdx?_cons, ha]
      rw [truncAtFind0, hf]
      simp [ha]
    · have hh : ((a :: t).head? = some 0) = False := by
        simp [List.head?, ha]
      rw [truncAtFind0]
      rcases hj : t.findIdx? (· = 0) with _ | j
      · have hf : pyFind0 (a :: t) = -1 := by
          simp [pyFind0, List.findIdx?_cons, ha, List.findIdx?_succ, hj]
        rw [hf]
        simp only [hh, if_false, show ¬((-1 : Int) > 0) from by omega, if_neg, not_false_iff]
        rw [List.takeWhile_cons, if_pos (by simp [ha]), takeWhile_of_findIdx_none t hj]
      · have hf : pyFind0 (a :: t) = (j : Int) + 1 := by
          simp [pyFind0, List.findIdx?_cons, ha, List.findIdx?_succ, hj]
        rw [hf]
        have : ((j : Int) + 1 > 0) := by omega
        rw [if_pos this]
        simp only [hh, if_false]
        have htn : ((j : Int) + 1).toNat = j + 1 := by omega
        rw [htn, List.take_succ_cons, List.takeWhile_cons, if_pos (by simp [ha])]
        rw [take_findIdx_eq_takeWhile t j hj]

theorem dropWhile0_of_forall (l : List Nat) (h : ∀ x ∈ l, x ≠ 0) :
    l.dropWhile (· = 0) = l := by
  cases l with
  | nil => rfl
  | cons a t =>
    have ha : a ≠ 0 := h a (by simp)
    simp [List.dropWhile_cons, ha]

theorem dropWhile0_replicate_append (z : Nat) (l : List Nat) :
    (List.replicate z 0 ++ l).dropWhile (· = 0) = l.dropWhile (· = 0) := by
  induction z with
  | zero => simp
  | succ n ih => simp [List.replicate_succ, List.dropWhile_cons, ih]

theorem takeWhile_padded (p : List Nat) (z : Nat) (hp : ∀ x ∈ p, x ≠ 0) :
    (p ++ List.replicate z 0).takeWhile (· ≠ 0) = p := by
  induction p with
  | nil =>
    cases z with
    | zero => rfl
    | succ n => simp [List.replicate_succ, List.takeWhile_cons]
  | cons a t ih =>
    have ha : a ≠ 0 := hp a (by simp)
    have ht : ∀ x ∈ t, x ≠ 0 := fun x hx => hp x (by simp [hx])
    simp only [List.cons_append, List.takeWhile_cons]
    rw [if_pos (show decide (a ≠ 0) = true from by simp [ha])]
    rw [ih ht]

theorem strip0_padded (p : List Nat) (z : Nat) (hp : ∀ x ∈ p, x ≠ 0) (hne : p ≠ []) :
    pyStrip0 (p ++ List.replicate z 0) = p := by
  unfold pyStrip0
  have h1 : (p ++ List.replicate z 0).dropWhile (· = 0) = p ++ List.replicate z 0 := by
    match p, hne with
    | a :: t, _ =>
      have ha : a ≠ 0 := hp a (by simp)
      simp [List.cons_append, List.dropWhile_cons, ha]
  rw [h1, List.reverse_append, List.reverse_replicate, dropWhile0_replicate_append]
  rw [dropWhile0_of_forall p.reverse (fun x hx => hp x (List.mem_reverse.mp hx))]
  rw [List.reverse_reverse]

theorem truncAtFind0_padded (p : List Nat) (z : Nat) (hp : ∀ x ∈ p, x ≠ 0) (hne : p ≠ []) :
    truncAtFind0 (p ++ List.replicate z 0) = p := by
  rw [truncAtFind0_eq]
  match p, hne with
  | a :: t, _ =>
    have ha : a ≠ 0 := hp a (by simp)
    rw [if_neg (by simp [List.cons_append, ha])]
    exact takeWhile_padded _ z hp

theorem truncAtFind0_of_forall (p : List Nat) (hp : ∀ x ∈ p, x ≠ 0) :
    truncAtFind0 p = p := by
  rw [truncAtFind0_eq]
  cases p with
  | nil => rfl
  | cons a t =>
    have ha : a ≠ 0 := hp a (by simp)
    rw [if_neg (by simp [ha])]
    rw [List.takeWhile_eq_self_iff.mpr (fun x hx => by simp [hp x hx])]

theorem buildHeaderAux_cons_inactive (bits : List Nat) (full : List String)
    (name : String) (rest : List String) (i : Nat)
    (hidx : full.findIdx? (· == name) = some i) (hbit : bits[i]? = some 0) :
    buildHeaderAux bits full (name :: rest) =
      (buildHeaderAux bits full rest).map (fun p => (p.1, knownMSColumns name :: p.2)) := by
  rw [buildHeaderAux]
  simp only [hidx, hbit, Bind.bind, Except.bind]
  rcases hr : buildHeaderAux bits full rest with e | ⟨outR, colsR⟩
  · rfl
  · simp [Except.map]

theorem buildHeaderAux_cons_unknown (bits : List Nat) (full : List String)
    (name : String) (rest : List String) (i b : Nat)
    (hk : knownMSColumns name = none)
    (hidx : full.findIdx? (· == name) = some i) (hbit : bits[i]? = some b) :
    buildHeaderAux bits full (name :: rest) =
      (buildHeaderAux bits full rest).map (fun p => (p.1, none :: p.2)) := by
  rw [buildHeaderAux]
  simp only [hidx, hbit, hk, Bind.bind, Except.bind]
  rcases hr : buildHeaderAux bits full rest with e | ⟨outR, colsR⟩
  · rfl
  · by_cases hb : b = 0
    · simp [Except.map, hb]
    · simp [Except.map, hb]

theorem popExcessAux_nogt (fuel : Nat) (lines : List String) (nf : Option Int)
    (h : pyGtLen lines.length nf = false) : popExcessAux fuel lines nf = .ok lines := by
  cases fuel <;> simp [popExcessAux, h]

theorem popExcessAux_ge (k : Int) (hk : 0 ≤ k) :
    ∀ d fuel (lines : List String), lines.length = k.toNat + d → d ≤ fuel →
      popExcessAux fuel lines (some k) = .ok (lines.take k.toNat) := by
  intro d
  induction d with
  | zero =>
    intro fuel lines hlen _
    have hg : pyGtLen lines.length (some k) = false := by
      simp only [pyGtLen, decide_eq_false_iff_not, not_lt, hlen]
      omega
    rw [popExcessAux_nogt fuel lines _ hg]
    rw [List.take_of_length_le (by omega)]
  | succ d ih =>
    intro fuel lines hlen hfuel
    have hg : pyGtLen lines.length (some k) = true := by
      simp only [pyGtLen, decide_eq_true_eq, hlen]
      omega
    match fuel, hfuel with
    | f + 1, _ =>
      simp only [popExcessAux, hg, if_true]
      match lines, hlen with
      | a :: as, hlen =>
        show popExcessAux f (a :: as).dropLast (some k) = Except.ok ((a :: as).take k.toNat)
        have hlen2 : (a :: as).dropLast.length = k.toNat + d := by
          simp [List.length_dropLast] at *
          omega
        rw [ih f _ hlen2 (by omega)]
        rw [List.dropLast_eq_take, List.take_take]
        congr 1
        simp at hlen ⊢
        omega

theorem popExcess_ge (k : Int) (hk : 0 ≤ k) (lines : List String)
    (hlen : k.toNat ≤ lines.length) :
    popExcess lines (some k) = .ok (lines.take k.toNat) :=
  popExcessAux_ge k hk (lines.length - k.toNat) lines.length lines (by omega) (by omega)

theorem popExcess_lt (k : Int) (lines : List String) (hlt : (lines.length : Int) < k) :
    popExcess lines (some k) = .ok lines :=
  popExcessAux_nogt _ _ _ (by simp only [pyGtLen, decide_eq_false_iff_not, not_lt]; omega)

theorem load_columns_ok (bf nf0 : Option Int) (lines : List String) (k : Int)
    (h : (DataFileInfo.resolveBits bf nf0).2 = some k) (hk : 0 ≤ k)
    (hlen : k.toNat ≤ lines.length) :
    DataFileInfo.load_columns bf nf0 lines =
      .ok ((DataFileInfo.resolveBits bf nf0).1, some k, lines.take k.toNat) := by
  rcases hr : DataFileInfo.resolveBits bf nf0 with ⟨bits, nf⟩
  rw [hr] at h
  simp only at h
  subst h
  simp only [DataFileInfo.load_columns, hr]
  rw [popExcess_ge k hk lines (by omega)]
  simp only [Bind.bind, Except.bind]
  have hl : (lines.take k.toNat).length = k.toNat := by
    simp [List.length_take]
    omega
  have he : pyEqLen (lines.take k.toNat).length (some k) = true := by
    simp only [pyEqLen, hl, decide_eq_true_eq]
    omega
  rw [he]
  simp

theorem load_columns_short (bf nf0 : Option Int) (lines : List String) (k : Int)
    (h : (DataFileInfo.resolveBits bf nf0).2 = some k)
    (hlen : (lines.length : Int) < k) :
    DataFileInfo.load_columns bf nf0 lines = .error .assertionError := by
  rcases hr : DataFileInfo.resolveBits bf nf0 with ⟨bits, nf⟩
  rw [hr] at h
  simp only at h
  subst h
  simp only [DataFileInfo.load_columns, hr]
  rw [popExcess_lt k lines hlen]
  simp only [Bind.bind, Except.bind]
  have he : pyEqLen lines.length (some k) = false := by
    simp only [pyEqLen, decide_eq_false_iff_not]
    omega
  rw [he]
  simp

set_option maxRecDepth 4000 in
/-- C6 witness: a two-record EMASTER stream under the test codec, one
record with decodable dates and one without, parses to exactly one stock. -/
theorem claim_C6_witness :
    ((List.replicate 188 0 : List Nat).length = 188 ∧
     ([c6GoodBlock, c6BadBlock].length = 2 + 256 * 0) ∧
     (∀ x ∈ [c6GoodBlock, c6BadBlock], x.length = 192)) ∧
    (∃ out, MSEMasterFile.readStocks testCodec.fmsbin2ieee testCodec.float2date
        (2 :: 0 :: 0 :: 0 :: (List.replicate 188 0 ++ [c6GoodBlock, c6BadBlock].flatten)) =
          .ok out ∧
      out.length = [c6GoodBlock, c6BadBlock].length -
        [c6GoodBlock, c6BadBlock].countP
          (emDatesFail testCodec.fmsbin2ieee testCodec.float2date)) :=
  ⟨⟨by decide, by decide, by decide⟩,
   claim_C6 testCodec.fmsbin2ieee testCodec.float2date 2 0 0 0 (List.replicate 188 0)
     [c6GoodBlock, c6BadBlock] (by decide) (by decide) (by decide)⟩

/-- C1 counterexample: with `bit_fields` present but equal to `0` and a
declared `num_fields` of `3`, `_load_columns` keeps the declared value
`3` instead of recomputing `num_fields` as the popcount `0` of
`bit_fields` — the source tests `bit_fields` for Python truthiness, so a
present-but-zero bitmask is treated like an absent one, refuting the
claim as stated. -/
theorem claim_C1_counterexample :
    DataFileInfo.load_columns (some 0) (some 3) ["A", "B", "C"] =
      .ok ([], some 3, ["A", "B", "C"]) ∧
    low8Popcount 0 = 0 ∧ some (3 : Int) ≠ some ((low8Popcount 0 : Nat) : Int) :=
  ⟨by decide, by decide, by decide⟩

/-- C1 (amended): when `bit_fields` is absent or zero the declared
`num_fields` stays authoritative; when `bit_fields` is present and
nonzero, `num_fields` is overridden to the number of set bits among bit
positions `0..7` and slot `i` is marked active exactly when bit `i` of
the mask is set (ascending from bit `0`); in particular for
`bit_fields = 0b00000101` and five declared names the resolved bits are
`[1,0,1,0,0,0,0,0]`, `num_fields` is overridden to `2` (regardless of
the declared `77`), and the name list is truncated to two entries. -/
theorem claim_C1_amended :
    (∀ nf0 : Option Int, DataFileInfo.resolveBits none nf0 = ([], nf0)) ∧
    (∀ nf0 : Option Int, DataFileInfo.resolveBits (some 0) nf0 = ([], nf0)) ∧
    (∀ (bf : Nat) (nf0 : Option Int), bf ≠ 0 →
      DataFileInfo.resolveBits (some (bf : Int)) nf0 =
        (low8Bits bf, some ((low8Popcount bf : Nat) : Int))) ∧
    DataFileInfo.load_columns (some 5) (some 77) ["A", "B", "C", "D", "E"] =
      .ok ([1, 0, 1, 0, 0, 0, 0, 0], some 2, ["A", "B"]) :=
  ⟨fun _ => rfl, fun _ => rfl, fun bf nf0 hbf => resolveBits_truthy bf hbf nf0, by decide⟩

/-- C1 witness: the amended theorem evaluated at the nonzero mask `5`. -/
theorem claim_C1_witness :
    (5 : Nat) ≠ 0 ∧
    DataFileInfo.resolveBits (some ((5 : Nat) : Int)) (some 77) =
      (low8Bits 5, some ((low8Popcount 5 : Nat) : Int)) :=
  ⟨by decide, claim_C1_amended.2.2.1 5 (some 77) (by decide)⟩

/-- C2 counterexample: converting a symbol with `bit_fields = 0b101`
(so `num_fields = 2`, slots `DATE` and `CLOSE`, and the active-flag list
`[1,0,1,...]` marks the second slot inactive) hides `"Close"` from the
header line, yet the record's close value `5.00` is still decoded and
written on the data line — refuting the claim that an inactive slot is
absent from every output data line. -/
theorem claim_C2_counterexample :
    (DataFileInfo.convert2ascii testCodec 2 (some 5) (some 77) ["DATE", "CLOSE", "X", "Y", "Z"]
        "NAME" 0 c2Input).map (fun ch => pyLines (joinChunks ch)) =
      .ok ["\"Name\",\"Date\"", "\"NAME\",20200101,5.00", ""] ∧
    ("\"NAME\",20200101,5.00" : String) ≠ "\"NAME\",20200101" :=
  ⟨by decide, by decide⟩

/-- C2 (amended): every record decode reads exactly 4 bytes per schema
slot regardless of the slot's active/inactive status, and a slot whose
`bits` entry is `0` is skipped in the header line; but the active flags
play no role in the per-record loop, so a known column's value is still
decoded and written to the data line whenever `perform_write` is set. -/
theorem claim_C2_amended :
    (∀ (codec : Codec) (prec : Nat) (nm : String) (y : Int) (cols : List (Option Column))
       (st st' : LCState), recordStep codec prec nm y cols st = .ok st' →
        st'.inp = st.inp.drop (4 * cols.length)) ∧
    (∀ (bits : List Nat) (full : List String) (name : String) (rest : List String) (i : Nat),
      full.findIdx? (· == name) = some i → bits[i]? = some 0 →
        buildHeaderAux bits full (name :: rest) =
          (buildHeaderAux bits full rest).map (fun p => (p.1, knownMSColumns name :: p.2))) ∧
    (∀ (codec : Codec) (prec : Nat) (nm : String) (y : Int) (inp : List Nat)
       (out : List String) (n : String),
      slotStep codec prec nm y ⟨inp, out, true⟩ (some (.FloatColumn n)) =
        .ok ⟨inp.drop 4, out ++ ["," ++ formatFixed prec (codec.fmsbin2ieee (inp.take 4))],
          true⟩) :=
  ⟨fun codec prec nm y cols st st' h => recordStep_ok_inp codec prec nm y cols st st' h,
   fun bits full name rest i h1 h2 => buildHeaderAux_cons_inactive bits full name rest i h1 h2,
   fun _ _ _ _ _ _ _ => rfl⟩

/-- C2 witness: a one-slot record consumes exactly four bytes. -/
theorem claim_C2_witness :
    (recordStep testCodec 2 "NAME" 0 [none] ⟨[1, 2, 3, 4, 5], [], true⟩ =
      .ok ⟨[5], ["\n"], true⟩) ∧
    (⟨[5], ["\n"], true⟩ : LCState).inp =
      ([1, 2, 3, 4, 5] : List Nat).drop (4 * ([none] : List (Option Column)).length) :=
  ⟨by decide, claim_C2_amended.1 testCodec 2 "NAME" 0 [none] ⟨[1, 2, 3, 4, 5], [], true⟩
    ⟨[5], ["\n"], true⟩ (by decide)⟩

/-- C3 counterexample: with the schema `["CLOSE", "DATE"]` (date in the
second slot, both slots active via `bit_fields = 0b11`), the record's
output line is `,5.00"NAME",20200101` — the close value written before
the stock name, because the name is emitted only when the `DATE` slot is
reached — refuting the claim that the first field of every output line
is the symbol's display name regardless of the DATE slot's position. -/
theorem claim_C3_counterexample :
    (DataFileInfo.convert2ascii testCodec 2 (some 3) (some 9) ["CLOSE", "DATE", "A", "B"]
        "NAME" 0 c3Input).map (fun ch => pyLines (joinChunks ch)) =
      .ok ["\"Name\",\"Close\",\"Date\"", ",5.00\"NAME\",20200101", ""] ∧
    (",5.00\"NAME\",20200101" : String).data.head? = some ',' :=
  ⟨by decide, by decide⟩

/-- C3 (amended): when the `DATE` column occupies the first schema slot
and the remaining slots are unknown, float or integer columns, every
record whose decoded date passes the cutoff produces exactly one output
line: the quoted stock name, the date value, one comma-prefixed value
per known column in slot order, then a single newline. -/
theorem claim_C3_amended : ∀ (codec : Codec) (prec : Nat) (nm : String) (y : Int)
    (st : LCState) (dn : String) (rest : List (Option Column)) (d : MSDate) (iv : Int),
    (∀ c ∈ rest, isSimpleSlot c = true) →
    codec.float2date (codec.fmsbin2ieee (st.inp.take 4)) = some d →
    pyIntParse (pad2 d.year ++ pad2 d.month ++ pad2 d.day) = some iv →
    iv ≥ y →
    recordStep codec prec nm y (some (.DateColumn dn) :: rest) st =
      .ok ⟨st.inp.drop (4 * (rest.length + 1)),
        st.out ++ ["\"" ++ nm ++ "\"", "," ++ (pad2 d.year ++ pad2 d.month ++ pad2 d.day)]
          ++ simpleChunks codec prec rest (st.inp.drop 4) ++ ["\n"], true⟩ :=
  fun codec prec nm y st dn rest d iv h1 h2 h3 h4 =>
    recordStep_dateFirst_pass codec prec nm y st dn rest d iv h1 h2 h3 h4

/-- C3 witness: a date-first record (date `20200101`, close `5`) above a
zero cutoff writes name, date, close and a newline. -/
theorem claim_C3_witness :
    ((∀ c ∈ ([some (.FloatColumn "Close")] : List (Option Column)), isSimpleSlot c = true) ∧
     testCodec.float2date (testCodec.fmsbin2ieee
       ((⟨dateBE 20200101 ++ [0, 0, 0, 5], [], true⟩ : LCState).inp.take 4)) =
         some ⟨2020, 1, 1⟩ ∧
     pyIntParse (pad2 (2020 : Int) ++ pad2 1 ++ pad2 1) = some 20200101 ∧
     (20200101 : Int) ≥ 0) ∧
    recordStep testCodec 2 "NAME" 0 (some (.DateColumn "Date") :: [some (.FloatColumn "Close")])
        ⟨dateBE 20200101 ++ [0, 0, 0, 5], [], true⟩ =
      .ok ⟨(⟨dateBE 20200101 ++ [0, 0, 0, 5], [], true⟩ : LCState).inp.drop
            (4 * (([some (.FloatColumn "Close")] : List (Option Column)).length + 1)),
        (⟨dateBE 20200101 ++ [0, 0, 0, 5], [], true⟩ : LCState).out ++
          ["\"" ++ "NAME" ++ "\"",
           "," ++ (pad2 (⟨2020, 1, 1⟩ : MSDate).year ++ pad2 (⟨2020, 1, 1⟩ : MSDate).month ++
             pad2 (⟨2020, 1, 1⟩ : MSDate).day)] ++
          simpleChunks testCodec 2 [some (.FloatColumn "Close")]
            ((⟨dateBE 20200101 ++ [0, 0, 0, 5], [], true⟩ : LCState).inp.drop 4) ++ ["\n"],
        true⟩ :=
  ⟨⟨by decide, by decide, by decide, by decide⟩,
   claim_C3_amended testCodec 2 "NAME" 0 ⟨dateBE 20200101 ++ [0, 0, 0, 5], [], true⟩ "Date"
     [some (.FloatColumn "Close")] ⟨2020, 1, 1⟩ 20200101
     (by decide) (by decide) (by decide) (by decide)⟩

/-- C4 code bug: the claim (and the spec) say that with `bit_fields`
absent every resolved slot is active and conversion succeeds; in the
source, `_load_columns` then leaves `bits` empty (and for a Format-C
record `num_fields` is also `None`, making the truncation loop pop from
an empty list), so the conversion raises `IndexError` instead — either
already in `_load_columns`, or at the first `bits[...]` lookup of
`load_candles` when a declared `num_fields` exists. -/
theorem claim_C4_bug :
    DataFileInfo.load_columns none none ["CLOSE"] = .error .indexError ∧
    DataFileInfo.convert2ascii testCodec 2 none none ["CLOSE"] "NAME" 0
      ([0, 0, 2, 0] ++ [0, 0, 0, 5]) = .error .indexError ∧
    DataFileInfo.load_candles testCodec 2 "NAME" ["CLOSE"] [] 1 0
      ([0, 0] ++ [2, 0] ++ [0, 0, 0, 5]) = .error .indexError :=
  ⟨by decide, by decide, by decide⟩

/-- C5 counterexample: with the schema `["CLOSE", "DATE"]` and cutoff
`20200103`, the second record (dated `20200101`, below the cutoff) still
writes its close value `,5.00` to the output — its pre-`DATE` fields are
emitted under the previous record's filter decision — refuting the claim
that a below-cutoff record produces no output. -/
theorem claim_C5_counterexample :
    (DataFileInfo.convert2ascii testCodec 2 (some 3) (some 9) ["CLOSE", "DATE", "A", "B"]
        "NAME" 20200103 c5bInput).map joinChunks =
      .ok "\"Name\",\"Close\",\"Date\"\n,7.00\"NAME\",20200104\n,5.00" ∧
    ("\"Name\",\"Close\",\"Date\"\n,7.00\"NAME\",20200104\n,5.00" : String) ≠
      "\"Name\",\"Close\",\"Date\"\n,7.00\"NAME\",20200104\n" :=
  ⟨by decide, by decide⟩

/-- C5 (amended): when the `DATE` column occupies the first schema slot,
a record whose decoded date is below the cutoff consumes the bytes of
all of its slots but writes nothing and clears `perform_write`; and on
the concrete five-record data file dated `20200101..20200105` with
cutoff `20200103` the output is one header line followed by exactly
three data lines. -/
theorem claim_C5_amended :
    (∀ (codec : Codec) (prec : Nat) (nm : String) (y : Int) (st : LCState) (dn : String)
       (rest : List (Option Column)) (d : MSDate) (iv : Int),
      (∀ c ∈ rest, isSimpleSlot c = true) →
      codec.float2date (codec.fmsbin2ieee (st.inp.take 4)) = some d →
      pyIntParse (pad2 d.year ++ pad2 d.month ++ pad2 d.day) = some iv →
      iv < y →
      recordStep codec prec nm y (some (.DateColumn dn) :: rest) st =
        .ok ⟨st.inp.drop (4 * (rest.length + 1)), st.out, false⟩) ∧
    (DataFileInfo.convert2ascii testCodec 2 (some 1) (some 9) ["DATE", "E1", "E2"]
        "NAME" 20200103 c5Input).map (fun ch => pyLines (joinChunks ch)) =
      .ok ["\"Name\",\"Date\"", "\"NAME\",20200103", "\"NAME\",20200104", "\"NAME\",20200105",
        ""] :=
  ⟨fun codec prec nm y st dn rest d iv h1 h2 h3 h4 =>
    recordStep_dateFirst_fail codec prec nm y st dn rest d iv h1 h2 h3 h4, by decide⟩

/-- C5 witness: a date-first record dated `20200101`, below the cutoff
`20200103`, consumes its four bytes and writes nothing. -/
theorem claim_C5_witness :
    ((∀ c ∈ ([] : List (Option Column)), isSimpleSlot c = true) ∧
     testCodec.float2date (testCodec.fmsbin2ieee
       ((⟨dateBE 20200101, ["x"], true⟩ : LCState).inp.take 4)) = some ⟨2020, 1, 1⟩ ∧
     pyIntParse (pad2 (2020 : Int) ++ pad2 1 ++ pad2 1) = some 20200101 ∧
     (20200101 : Int) < 20200103) ∧
    recordStep testCodec 2 "NAME" 20200103 (some (.DateColumn "Date") :: [])
        ⟨dateBE 20200101, ["x"], true⟩ =
      .ok ⟨(⟨dateBE 20200101, ["x"], true⟩ : LCState).inp.drop
            (4 * (([] : List (Option Column)).length + 1)),
        (⟨dateBE 20200101, ["x"], true⟩ : LCState).out, false⟩ :=
  ⟨⟨by decide, by decide, by decide, by decide⟩,
   claim_C5_amended.1 testCodec 2 "NAME" 20200103 ⟨dateBE 20200101, ["x"], true⟩ "Date"
     [] ⟨2020, 1, 1⟩ 20200101 (by decide) (by decide) (by decide) (by decide)⟩

/-- C7 (confirmed): the column-schema loader truncates the raw name list
to exactly the resolved `num_fields` entries, discarding the excess from
the end; with fewer names than `num_fields` it raises the
data-integrity `AssertionError`; and the conversion driver processes
every stock regardless of any per-symbol failure (a failed symbol yields
`none` and the run continues with the next stock). -/
theorem claim_C7 :
    (∀ (bf nf0 : Option Int) (lines : List String) (k : Int),
      (DataFileInfo.resolveBits bf nf0).2 = some k → 0 ≤ k → k.toNat ≤ lines.length →
        DataFileInfo.load_columns bf nf0 lines =
          .ok ((DataFileInfo.resolveBits bf nf0).1, some k, lines.take k.toNat) ∧
        (lines.take k.toNat).length = k.toNat) ∧
    (∀ (bf nf0 : Option Int) (lines : List String) (k : Int),
      (DataFileInfo.resolveBits bf nf0).2 = some k → (lines.length : Int) < k →
        DataFileInfo.load_columns bf nf0 lines = .error .assertionError) ∧
    (∀ (codec : Codec) (prec : Nat) (y : Int) (all : Bool) (syms : List String)
       (stocks : List StockConv),
      (output_ascii codec prec y all syms stocks).length = stocks.length) ∧
    (∀ (codec : Codec) (prec : Nat) (y : Int) (all : Bool) (syms : List String)
       (s : StockConv) (rest : List StockConv),
      output_ascii codec prec y all syms (s :: rest) =
        (if all || syms.contains s.stock_symbol then
          some (DataFileInfo.convert2ascii codec prec s.bit_fields s.num_fields s.dopNames
            s.stock_name y s.datInput).toOption
         else none) :: output_ascii codec prec y all syms rest) := by
  refine ⟨?_, ?_, ?_, ?_⟩
  · intro bf nf0 lines k h hk hlen
    refine ⟨load_columns_ok bf nf0 lines k h hk hlen, ?_⟩
    simp [List.length_take]
    omega
  · intro bf nf0 lines k h hlt
    exact load_columns_short bf nf0 lines k h hlt
  · intro codec prec y all syms stocks
    simp [output_ascii]
  · intro codec prec y all syms s rest
    rfl

/-- C7 witness: three names truncated to the declared two. -/
theorem claim_C7_witness :
    ((DataFileInfo.resolveBits none (some 2)).2 = some 2 ∧ (0 : Int) ≤ 2 ∧
      (2 : Int).toNat ≤ (["A", "B", "C"] : List String).length) ∧
    (DataFileInfo.load_columns none (some 2) ["A", "B", "C"] =
        .ok ((DataFileInfo.resolveBits none (some 2)).1, some 2,
          (["A", "B", "C"] : List String).take (2 : Int).toNat) ∧
      ((["A", "B", "C"] : List String).take (2 : Int).toNat).length = (2 : Int).toNat) :=
  ⟨⟨by decide, by decide, by decide⟩,
   claim_C7.1 none (some 2) ["A", "B", "C"] 2 (by decide) (by decide) (by decide)⟩

/-- C8 counterexample: an XMASTER record whose 15-byte symbol field
starts with a null byte is parsed verbatim (the null and everything
after it kept), whereas truncation at the first embedded null would
give the empty string — refuting the claim for the XMASTER format. -/
theorem claim_C8_counterexample :
    ((MSXMasterFile.readFileInfo xmRecBlk).1.toOption.map DataFileInfo.stock_symbol) =
      some (0 :: 65 :: List.replicate 13 0) ∧
    specNullTrim ((xmRecBlk.drop 1).take 15) = [] ∧
    (0 :: 65 :: List.replicate 13 0 : List Nat) ≠ [] :=
  ⟨by decide, by decide, by decide⟩

/-- C8 (amended): the XMASTER and MASTER field parse cuts a field at its
first null byte only when that null is not the leading byte — a field
beginning with a null is kept verbatim; the EMASTER symbol strips null
bytes from both ends (keeping embedded nulls), and the EMASTER name is
additionally cut at its first remaining embedded null; for a well-formed
field (nonempty null-free content followed by null padding) all of these
agree with the specification's trim-at-first-null. -/
theorem claim_C8_amended :
    (∀ raw : List Nat, truncAtFind0 raw =
      if raw.head? = some 0 then raw else raw.takeWhile (· ≠ 0)) ∧
    (∀ (p : List Nat) (z : Nat), (∀ x ∈ p, x ≠ 0) → p ≠ [] →
      pyStrip0 (p ++ List.replicate z 0) = p ∧
      truncAtFind0 (pyStrip0 (p ++ List.replicate z 0)) = p ∧
      truncAtFind0 (p ++ List.replicate z 0) = p ∧
      specNullTrim (p ++ List.replicate z 0) = p) := by
  refine ⟨truncAtFind0_eq, ?_⟩
  intro p z hp hne
  have hs := strip0_padded p z hp hne
  refine ⟨hs, ?_, truncAtFind0_padded p z hp hne, ?_⟩
  · rw [hs]
    exact truncAtFind0_of_forall p hp
  · exact takeWhile_padded p z hp

/-- C8 witness: the padded field `[65, 0, 0, 0]` parses as `[65]` under
all of the source's trimming functions and under the spec's trim. -/
theorem claim_C8_witness :
    ((∀ x ∈ ([65] : List Nat), x ≠ 0) ∧ ([65] : List Nat) ≠ []) ∧
    (pyStrip0 ([65] ++ List.replicate 3 0) = [65] ∧
     truncAtFind0 (pyStrip0 ([65] ++ List.replicate 3 0)) = [65] ∧
     truncAtFind0 ([65] ++ List.replicate 3 0) = [65] ∧
     specNullTrim ([65] ++ List.replicate 3 0) = [65]) :=
  ⟨⟨by decide, by decide⟩, claim_C8_amended.2 [65] 3 (by decide) (by decide)⟩

/-- C9 code bug: the claim (and the spec) say a decoded TIME value is
formatted as its two-digit hour, minute and second; the source's
`TimeColumn.format` instead reads `value.year`, `value.month` and
`value.day`, attributes a decoded time value does not have, so every
successfully decoded time raises `AttributeError` and nothing is ever
formatted as `HHMMSS`. -/
theorem claim_C9_bug : ∀ (prec : Nat) (nm : String) (t : MSTime),
    Column.format prec (.TimeColumn nm) (.vTime t) = .error .attributeError ∧
    ∀ s : String, Column.format prec (.TimeColumn nm) (.vTime t) ≠ .ok s := by
  intro prec nm t
  refine ⟨rfl, ?_⟩
  intro s h
  rw [show Column.format prec (.TimeColumn nm) (.vTime t) = .error .attributeError from rfl] at h
  exact Except.noConfusion h

/-- C10 (confirmed): a column slot with no known decoder consumes
exactly four bytes of the record and contributes nothing to the output;
the slots after it continue from the byte cursor advanced by exactly
four — the same advance every known slot performs — so no subsequent
column's decoded value shifts; and the header loop writes nothing for an
unrecognized name. -/
theorem claim_C10 :
    (∀ (codec : Codec) (prec : Nat) (nm : String) (y : Int) (st : LCState),
      slotStep codec prec nm y st none = .ok ⟨st.inp.drop 4, st.out, st.pw⟩) ∧
    (∀ (codec : Codec) (prec : Nat) (nm : String) (y : Int) (st : LCState)
       (rest : List (Option Column)),
      runSlots codec prec nm y (none :: rest) st =
        runSlots codec prec nm y rest ⟨st.inp.drop 4, st.out, st.pw⟩) ∧
    (∀ (bits : List Nat) (full : List String) (name : String) (rest : List String) (i b : Nat),
      knownMSColumns name = none →
      full.findIdx? (· == name) = some i → bits[i]? = some b →
        buildHeaderAux bits full (name :: rest) =
          (buildHeaderAux bits full rest).map (fun p => (p.1, none :: p.2))) ∧
    (∀ (codec : Codec) (prec : Nat) (nm : String) (y : Int) (st : LCState) (c : Column)
       (st' : LCState), slotStep codec prec nm y st (some c) = .ok st' →
        st'.inp = st.inp.drop 4) :=
  ⟨fun _ _ _ _ _ => rfl, fun _ _ _ _ _ _ => rfl,
   fun bits full name rest i b hk h1 h2 =>
     buildHeaderAux_cons_unknown bits full name rest i b hk h1 h2,
   fun codec prec nm y st c st' h => slotStep_ok_inp codec prec nm y st (some c) st' h⟩

/-- C10 witness: the unrecognized name `XYZ` contributes nothing to the
header line. -/
theorem claim_C10_witness :
    (knownMSColumns "XYZ" = none ∧
      (["XYZ"] : List String).findIdx? (· == "XYZ") = some 0 ∧
      ([1, 0, 0, 0, 0, 0, 0, 0] : List Nat)[0]? = some 1) ∧
    buildHeaderAux [1, 0, 0, 0, 0, 0, 0, 0] ["XYZ"] ("XYZ" :: []) =
      (buildHeaderAux [1, 0, 0, 0, 0, 0, 0, 0] ["XYZ"] []).map (fun p => (p.1, none :: p.2)) :=
  ⟨⟨by decide, by decide, by decide⟩,
   claim_C10.2.2.1 [1, 0, 0, 0, 0, 0, 0, 0] ["XYZ"] "XYZ" [] 0 1
     (by decide) (by decide) (by decide)⟩
